import Mathlib

/-!
# Verification of the animachat plugin state subsystem

Shallow embedding of `PluginStateManager` (src/tools/plugins/state.ts) and
`PluginContextFactory` (src/tools/plugins/context-factory.ts).

Modelling conventions:

* The manager's persistent layer (the JSON files under
  `{cacheDir}/plugins/{pluginId}/...`) is a `ManagerState`: one optional global
  blob, a map from channelId to channel file content, and a map from channelId
  to epic event log.  The in-memory caches of the TypeScript class are
  write-through and populated from the very files they shadow, so within one
  process cache and file always hold the same value; the embedding therefore
  keeps a single copy.
* Blobs (`any` in TypeScript) are an opaque type parameter `β`; epic deltas are
  an opaque type parameter `δ`.  A JavaScript `null` blob is `none`.
* `String.prototype.localeCompare` (used on Discord snowflake message ids,
  which are ASCII digit strings) is modelled as lexicographic comparison of the
  underlying character lists: `a.localeCompare(b) < 0` becomes
  `a.data < b.data` in the `List Char` linear order.
* Fallible file reads that the source maps to defaults (`ENOENT` → `null` /
  `[]`) are total functions returning the default.
-/

namespace Animachat

/-- `msgLtb a b` models `a.localeCompare(b) > 0` read as "`b` strictly precedes
`a`" — i.e. it is `true` iff `a` is lexicographically smaller than `b`. -/
def msgLtb (a b : String) : Bool := decide (a.data < b.data)

/-- `msgLeb a b` models `a.localeCompare(b) <= 0`: `a` is lexicographically at
most `b`. -/
def msgLeb (a b : String) : Bool := !(msgLtb b a)

theorem msgLtb_iff (a b : String) : msgLtb a b = true ↔ a.data < b.data := by
  simp [msgLtb]

theorem msgLeb_iff (a b : String) : msgLeb a b = true ↔ a.data ≤ b.data := by
  simp [msgLeb, msgLtb, not_lt]

/-- Mirrors `StateEvent` of state.ts: a delta tied to a message id. -/
structure StateEvent (δ : Type) where
  messageId : String
  timestamp : String
  delta : δ
deriving DecidableEq

/-- Mirrors `ChannelStateMetadata` of state.ts. -/
structure ChannelStateMetadata where
  lastModifiedMessageId : Option String
  parentChannelId : Option String := none
  historyOriginChannelId : Option String := none
deriving DecidableEq

/-- Content of one `channel/{channelId}.json` file: `{ state, metadata }`. -/
structure ChannelData (β : Type) where
  state : Option β
  metadata : ChannelStateMetadata
deriving DecidableEq

/-- The persistent layer owned by one `PluginStateManager` (one pluginId):
the global blob file, the channel state files and the epic event-log files,
each keyed by channelId.  `none` means the file does not exist. -/
structure ManagerState (β δ : Type) where
  globalFile : Option β
  channelFiles : String → Option (ChannelData β)
  epicFiles : String → Option (List (StateEvent δ))

/-- A manager whose directory holds no files at all. -/
def emptyManager (β δ : Type) : ManagerState β δ :=
  { globalFile := none, channelFiles := fun _ => none, epicFiles := fun _ => none }

/-- `getEpicEvents`: read a channel's event log, `[]` when the file is absent
(the `ENOENT` branch). -/
def getEpicEvents (s : ManagerState β δ) (channelId : String) : List (StateEvent δ) :=
  (s.epicFiles channelId).getD []

/-- `saveEpicEvents`: overwrite a channel's event-log file. -/
def saveEpicEvents (s : ManagerState β δ) (channelId : String)
    (events : List (StateEvent δ)) : ManagerState β δ :=
  { s with epicFiles := Function.update s.epicFiles channelId (some events) }

/-- The comparator `(a, b) => a.messageId.localeCompare(b.messageId)` used by
`Array.prototype.sort` in `recordEpicEvent`, as a `≤`-test. -/
def eventLe (a b : StateEvent δ) : Bool := msgLeb a.messageId b.messageId

/-- `recordEpicEvent`: drop any existing event for this message id, push the
new event, sort by message id, save. -/
def recordEpicEvent (s : ManagerState β δ) (channelId messageId timestamp : String)
    (delta : δ) : ManagerState β δ :=
  let events := getEpicEvents s channelId
  let filtered := events.filter (fun e => e.messageId != messageId)
  let appended := filtered ++ [{ messageId := messageId, timestamp := timestamp, delta := delta }]
  saveEpicEvents s channelId (appended.mergeSort eventLe)

/-- The loop's `break` condition
`upToMessageId && event.messageId.localeCompare(upToMessageId) > 0`
(a `null` bound never breaks). -/
def breakTest (upTo : Option String) (e : StateEvent δ) : Bool :=
  match upTo with
  | some u => msgLtb u e.messageId
  | none => false

/-- The loop's `continue` condition
`messageIds && !messageIds.has(event.messageId)` (a `null` set never skips). -/
def skipTest (live : Option (List String)) (e : StateEvent δ) : Bool :=
  match live with
  | some ids => !(ids.contains e.messageId)
  | none => false

/-- "`event` is applied as far as the live set is concerned": the negation of
`skipTest`, spelled positively. -/
def liveTest (live : Option (List String)) (e : StateEvent δ) : Bool :=
  match live with
  | none => true
  | some ids => ids.contains e.messageId

/-- The replay loop body of `getEpicState`: iterate over the stored events,
`break` at the first event past `upTo` (when `upTo` is non-null), `continue`
past events whose id is missing from the live set (when a live set is given),
otherwise run the reducer. -/
def replayLoop (reducer : Option σ → δ → σ) (upTo : Option String)
    (live : Option (List String)) : List (StateEvent δ) → Option σ → Option σ
  | [], state => state
  | e :: rest, state =>
    if breakTest upTo e then state
    else if skipTest live e then
      replayLoop reducer upTo live rest state
    else
      replayLoop reducer upTo live rest (some (reducer state e.delta))

/-- `getEpicState`: replay the channel's stored events from the `null` state. -/
def getEpicState (s : ManagerState β δ) (channelId : String) (upToMessageId : Option String)
    (messageIds : Option (List String)) (reducer : Option σ → δ → σ) : Option σ :=
  replayLoop reducer upToMessageId messageIds (getEpicEvents s channelId) none

/-- `forkEpicState`: copy the parent events with id at most the thread-creation
message into the thread's log — but only when that copy is non-empty. -/
def forkEpicState (s : ManagerState β δ) (parentChannelId threadId : String)
    (threadCreationMessageId : String) : ManagerState β δ :=
  let parentEvents := getEpicEvents s parentChannelId
  let forkedEvents := parentEvents.filter (fun e => msgLeb e.messageId threadCreationMessageId)
  if forkedEvents.length > 0 then saveEpicEvents s threadId forkedEvents else s

/-- Replay as the specification words it (§4.3 of the spec): truncate the log
before the first event past the bound (`takeWhile`), keep only live events
(`filter`), and fold the reducer over what remains starting from `null`.  Used
to compare the source's loop against the spec's description. -/
def replaySpec (events : List (StateEvent δ)) (upTo : Option String)
    (live : Option (List String)) (reducer : Option σ → δ → σ) : Option σ :=
  let bounded := match upTo with
    | none => events
    | some u => events.takeWhile (fun e => !(msgLtb u e.messageId))
  let kept := bounded.filter (liveTest live)
  kept.foldl (fun state e => some (reducer state e.delta)) none

/-- The inheritance hints passed to `getChannelState` (`inheritFrom`). -/
structure InheritFrom where
  parentChannelId : Option String := none
  historyOriginChannelId : Option String := none
deriving DecidableEq

/-- The `{ state, metadata }` pair returned by `getChannelState`. -/
structure ChannelResult (β : Type) where
  state : Option β
  metadata : ChannelStateMetadata
deriving DecidableEq

/-- The metadata `getChannelState` fabricates when nothing is found:
`{ lastModifiedMessageId: null }`. -/
def emptyMetadata : ChannelStateMetadata :=
  { lastModifiedMessageId := none }

/-- Reading a channel file with no inheritance: this is what the recursive
call `this.getChannelState(id)` inside the inheritance branches does (with no
`inheritFrom`, a miss falls straight through to the null result). -/
def readChannelFile (s : ManagerState β δ) (channelId : String) : ChannelResult β :=
  match s.channelFiles channelId with
  | some d => { state := d.state, metadata := d.metadata }
  | none => { state := none, metadata := emptyMetadata }

/-- `getChannelState`: return the channel's own file when present; otherwise
try the `.history` origin, then the thread parent, inheriting the blob and the
donor's metadata (with the donor's id recorded); otherwise the null result.
The truthiness test `if (origin.state)` is `state = some _`. -/
def getChannelState (s : ManagerState β δ) (channelId : String)
    (inheritFrom : Option InheritFrom) : ChannelResult β :=
  match s.channelFiles channelId with
  | some d => { state := d.state, metadata := d.metadata }
  | none =>
    let originCase : Option (ChannelResult β) :=
      match inheritFrom.bind (fun i => i.historyOriginChannelId) with
      | none => none
      | some originId =>
        let origin := readChannelFile s originId
        match origin.state with
        | some v =>
          some { state := some v
                 metadata := { origin.metadata with historyOriginChannelId := some originId } }
        | none => none
    match originCase with
    | some r => r
    | none =>
      match inheritFrom.bind (fun i => i.parentChannelId) with
      | none => { state := none, metadata := emptyMetadata }
      | some parentId =>
        let parent := readChannelFile s parentId
        match parent.state with
        | some v =>
          { state := some v
            metadata := { parent.metadata with parentChannelId := some parentId } }
        | none => { state := none, metadata := emptyMetadata }

/-- `setChannelState`: read the existing entry (without inheritance), keep its
metadata but set `lastModifiedMessageId` to the given message id when one is
supplied (`messageId || existing.metadata.lastModifiedMessageId`), then write
the `{ state, metadata }` file. -/
def setChannelState (s : ManagerState β δ) (channelId : String) (state : Option β)
    (messageId : Option String) : ManagerState β δ :=
  let existing := getChannelState s channelId none
  let metadata : ChannelStateMetadata :=
    { existing.metadata with
      lastModifiedMessageId :=
        match messageId with
        | some m => some m
        | none => existing.metadata.lastModifiedMessageId }
  { s with channelFiles := Function.update s.channelFiles channelId (some ⟨state, metadata⟩) }

/-- `getGlobalState`: the global blob, `none` when the file is absent. -/
def getGlobalState (s : ManagerState β δ) : Option β := s.globalFile

/-- `setGlobalState`: overwrite the global blob. -/
def setGlobalState (s : ManagerState β δ) (state : Option β) : ManagerState β δ :=
  { s with globalFile := state }

/-- `path.join` on already-normalized components, as used by the three path
getters: plain separator-interposed concatenation. -/
def pathJoin (a b : String) : String := a ++ "/" ++ b

/-- `globalPath`: `{cacheDir}/plugins/{pluginId}/global.json`. -/
def globalPath (cacheDir pluginId : String) : String :=
  pathJoin (pathJoin (pathJoin cacheDir "plugins") pluginId) "global.json"

/-- `channelPath`: `{cacheDir}/plugins/{pluginId}/channel/{channelId}.json`. -/
def channelPath (cacheDir pluginId channelId : String) : String :=
  pathJoin (pathJoin (pathJoin (pathJoin cacheDir "plugins") pluginId) "channel")
    (channelId ++ ".json")

/-- `epicEventsPath`: `{cacheDir}/plugins/{pluginId}/epic/{channelId}.json`. -/
def epicEventsPath (cacheDir pluginId channelId : String) : String :=
  pathJoin (pathJoin (pathJoin (pathJoin cacheDir "plugins") pluginId) "epic")
    (channelId ++ ".json")

/-! ## Context factory (context-factory.ts)

In `createStateContext` the blob type, the epic delta type and the epic state
type are all the plugin's `T` (`any`); the embedding uses one parameter `α`
for all three.  The `Bool` component of the get results records whether the
operation hit a `logger.warn` call (the missing-reducer warnings). -/

/-- The closed scope set of state.ts. -/
inductive StateScope where
  | global
  | channel
  | epic
deriving DecidableEq

/-- `getState(scope)` of the bound plugin context, paired with whether the
missing-reducer warning fired. -/
def ctxGetState (s : ManagerState α α) (channelId : String)
    (inheritanceInfo : Option InheritFrom) (epicReducer : Option (Option α → α → α))
    (messageIdSet : List String) : StateScope → Option α × Bool
  | .global => (getGlobalState s, false)
  | .channel => ((getChannelState s channelId inheritanceInfo).state, false)
  | .epic =>
    match epicReducer with
    | none => ((getChannelState s channelId inheritanceInfo).state, true)
    | some r => (getEpicState s channelId none (some messageIdSet) r, false)

/-- `setState(scope, state)` of the bound plugin context.  `ts` is the wall
clock reading `new Date().toISOString()` taken inside `recordEpicEvent`. -/
def ctxSetState (s : ManagerState α α) (channelId currentMessageId ts : String)
    (scope : StateScope) (v : α) : ManagerState α α :=
  match scope with
  | .global => setGlobalState s (some v)
  | .channel => setChannelState s channelId (some v) (some currentMessageId)
  | .epic => recordEpicEvent s channelId currentMessageId ts v

/-- `getStateAtMessage(messageId)` of the bound plugin context, paired with
whether the missing-reducer warning fired. -/
def ctxGetStateAtMessage (s : ManagerState α α) (channelId : String)
    (epicReducer : Option (Option α → α → α)) (messageIdSet : List String)
    (messageId : String) : Option α × Bool :=
  match epicReducer with
  | none => (none, true)
  | some r => (getEpicState s channelId (some messageId) (some messageIdSet) r, false)

/-- One iteration of the position-map loop: `positions.set(messageIds[i], i)`. -/
def updatePositions (acc : String → Option Nat) (q : Nat × String) : String → Option Nat :=
  Function.update acc q.2 (some q.1)

/-- The position map of `PluginContextFactory`: the loop
`for i: positions.set(messageIds[i], i)` — a later duplicate overwrites an
earlier index. -/
def messagePositions (ids : List String) : String → Option Nat :=
  ids.enum.foldl updatePositions (fun _ => none)

/-- `calculateCurrentDepth` of context-factory.ts. -/
def calculateCurrentDepth (ids : List String) (lastModifiedAt : Option String)
    (targetDepth : Nat) : Nat :=
  match lastModifiedAt with
  | none => targetDepth
  | some m =>
    match messagePositions ids m with
    | none => targetDepth
    | some position => min (ids.length - 1 - position) targetDepth

/-- The epic-log invariant maintained by `recordEpicEvent`: strictly ascending
message ids.  This packages both spec invariants at once — the list is sorted
by messageId, and no two events share a messageId. -/
def EpicLogWF (l : List (StateEvent δ)) : Prop :=
  l.Pairwise (fun a b => a.messageId.data < b.messageId.data)

instance (l : List (StateEvent δ)) : Decidable (EpicLogWF l) :=
  inferInstanceAs (Decidable (l.Pairwise _))

/-- One `recordEpicEvent` call, as data (for reasoning about call sequences). -/
structure EpicOp (δ : Type) where
  channelId : String
  messageId : String
  timestamp : String
  delta : δ

/-- Run a sequence of `recordEpicEvent` calls. -/
def applyEpicOps (s : ManagerState β δ) (ops : List (EpicOp δ)) : ManagerState β δ :=
  ops.foldl (fun acc op => recordEpicEvent acc op.channelId op.messageId op.timestamp op.delta) s

/-- The reducer `(s, d) => (s || 0) + d` from the spec's scenario S3, used in
concrete instantiations. -/
def addReducer : Option Nat → Nat → Nat := fun st d => st.getD 0 + d

/-- Concrete store: a well-formed three-event log on channel `ch`. -/
def wfMgr : ManagerState Nat Nat :=
  { globalFile := none, channelFiles := fun _ => none,
    epicFiles := fun ch =>
      if ch = "ch" then some [⟨"m1", "t", 1⟩, ⟨"m2", "t", 1⟩, ⟨"m3", "t", 1⟩] else none }

/-- Concrete store: the parent channel `p` has no epic log while the thread
channel `c` already has one event. -/
def forkCexMgr : ManagerState Nat Nat :=
  { globalFile := none, channelFiles := fun _ => none,
    epicFiles := fun ch => if ch = "c" then some [⟨"a", "t", 1⟩] else none }

/-- Concrete store: channel `p` has a single event above the fork point. -/
def noWriteMgr : ManagerState Nat Nat :=
  { globalFile := none, channelFiles := fun _ => none,
    epicFiles := fun ch => if ch = "p" then some [⟨"z", "t", 3⟩] else none }

/-- Concrete store: channel state for a parent `P` and a history origin `H`,
nothing for the child `c`. -/
def inhMgr : ManagerState Nat Nat :=
  { globalFile := none,
    channelFiles := fun ch =>
      if ch = "P" then some ⟨some 1, { lastModifiedMessageId := some "mp" }⟩
      else if ch = "H" then some ⟨some 2, { lastModifiedMessageId := some "mh" }⟩
      else none,
    epicFiles := fun _ => none }

/-! ## The replay loop versus the spec's description (C1) -/

theorem takeWhile_const_true (l : List α) : l.takeWhile (fun _ => true) = l := by
  induction l with
  | nil => rfl
  | cons a t ih => simp [List.takeWhile_cons, ih]

theorem liveTest_eq_not_skipTest (live : Option (List String)) (e : StateEvent δ) :
    liveTest live e = !(skipTest live e) := by
  cases live with
  | none => rfl
  | some ids => simp [liveTest, skipTest]

/-- The `for`/`break`/`continue` loop of `getEpicState` computes the
truncate-filter-fold composition, for any starting accumulator. -/
theorem replayLoop_eq_foldl (reducer : Option σ → δ → σ) (upTo : Option String)
    (live : Option (List String)) :
    ∀ (events : List (StateEvent δ)) (st : Option σ),
      replayLoop reducer upTo live events st
        = ((events.takeWhile (fun e => !(breakTest upTo e))).filter
            (liveTest live)).foldl (fun state e => some (reducer state e.delta)) st := by
  intro events
  induction events with
  | nil => intro st; rfl
  | cons e rest ih =>
    intro st
    cases hb : breakTest upTo e with
    | true => simp [replayLoop, hb, List.takeWhile_cons]
    | false =>
      cases hs : skipTest live e with
      | true =>
        have hkeep : liveTest live e = false := by
          rw [liveTest_eq_not_skipTest, hs]; rfl
        simp [replayLoop, hb, hs, List.takeWhile_cons, hkeep, ih]
      | false =>
        have hkeep : liveTest live e = true := by
          rw [liveTest_eq_not_skipTest, hs]; rfl
        simp [replayLoop, hb, hs, List.takeWhile_cons, hkeep, ih]

/-- C1: `getEpicState` folds the stored log in order from the `null` state,
stops before the first event whose messageId is lexicographically greater than
`upToMessageId` (replaying everything when it is `null`), skips events whose
messageId is not in the live set when one is provided (applying every event
when it is `null`), and returns the accumulated state — i.e. it computes the
takeWhile/filter/fold composition `replaySpec`. -/
theorem getEpicState_replaySpec (s : ManagerState β δ) (channelId : String)
    (upTo : Option String) (live : Option (List String)) (reducer : Option σ → δ → σ) :
    getEpicState s channelId upTo live reducer
      = replaySpec (getEpicEvents s channelId) upTo live reducer := by
  unfold getEpicState replaySpec
  rw [replayLoop_eq_foldl]
  cases upTo with
  | none => simp [breakTest, takeWhile_const_true]
  | some u => rfl

/-! ## The epic-log invariant (C2) -/

theorem eventLe_trans (a b c : StateEvent δ) :
    eventLe a b = true → eventLe b c = true → eventLe a c = true := by
  simp only [eventLe, msgLeb_iff]
  exact le_trans

theorem eventLe_total (a b : StateEvent δ) : (eventLe a b || eventLe b a) = true := by
  simp only [eventLe, Bool.or_eq_true, msgLeb_iff]
  exact le_total _ _

theorem string_data_ne {a b : String} (h : a ≠ b) : a.data ≠ b.data := by
  intro hd
  apply h
  cases a
  cases b
  exact congrArg String.mk hd

theorem epicLogWF_pairwise_le {l : List (StateEvent δ)} (h : EpicLogWF l) :
    l.Pairwise (fun a b => eventLe a b = true) := by
  refine h.imp ?_
  intro a b hab
  simp only [eventLe, msgLeb_iff]
  exact le_of_lt hab

theorem epicLogWF_pairwise_ne {l : List (StateEvent δ)} (h : EpicLogWF l) :
    l.Pairwise (fun a b => a.messageId ≠ b.messageId) := by
  refine h.imp ?_
  intro a b hab heq
  rw [heq] at hab
  exact lt_irrefl _ hab

theorem pairwise_le_ne_wf {l : List (StateEvent δ)}
    (hle : l.Pairwise (fun a b => eventLe a b = true))
    (hne : l.Pairwise (fun a b => a.messageId ≠ b.messageId)) : EpicLogWF l := by
  refine (hle.and hne).imp ?_
  intro a b hab
  exact lt_of_le_of_ne ((msgLeb_iff _ _).mp hab.1) (string_data_ne hab.2)

theorem recordEpicEvent_log (s : ManagerState β δ) (c m ts : String) (d : δ) :
    getEpicEvents (recordEpicEvent s c m ts d) c
      = List.mergeSort (((getEpicEvents s c).filter (fun e => e.messageId != m)) ++
          [(⟨m, ts, d⟩ : StateEvent δ)]) eventLe := by
  simp [recordEpicEvent, saveEpicEvents, getEpicEvents, Function.update_same]

theorem recordEpicEvent_other (s : ManagerState β δ) (c c' m ts : String) (d : δ)
    (hne : c' ≠ c) :
    getEpicEvents (recordEpicEvent s c m ts d) c' = getEpicEvents s c' := by
  simp [recordEpicEvent, saveEpicEvents, getEpicEvents, Function.update_noteq hne]

theorem recordEpicEvent_wf (s : ManagerState β δ) (c m ts : String) (d : δ)
    (h : EpicLogWF (getEpicEvents s c)) :
    EpicLogWF (getEpicEvents (recordEpicEvent s c m ts d) c) := by
  rw [recordEpicEvent_log]
  refine pairwise_le_ne_wf (@List.sorted_mergeSort _ eventLe eventLe_trans eventLe_total _) ?_
  refine ((List.mergeSort_perm _ eventLe).pairwise_iff fun hab => hab.symm).mpr ?_
  rw [List.pairwise_append]
  refine ⟨List.Pairwise.filter _ (epicLogWF_pairwise_ne h), List.pairwise_singleton _ _, ?_⟩
  intro a ha b hb
  rw [List.mem_singleton] at hb
  subst hb
  have := (List.mem_filter.mp ha).2
  simpa using this

theorem recordEpicEvent_filter_self (s : ManagerState β δ) (c m ts : String) (d : δ) :
    (getEpicEvents (recordEpicEvent s c m ts d) c).filter
        (fun e => e.messageId == m) = [⟨m, ts, d⟩] := by
  rw [recordEpicEvent_log]
  apply List.perm_singleton.mp
  refine ((List.mergeSort_perm _ eventLe).filter _).trans ?_
  rw [List.filter_append, List.filter_filter]
  simp [bne]

theorem recordEpicEvent_filter_other (s : ManagerState β δ) (c m ts : String) (d : δ)
    (h : EpicLogWF (getEpicEvents s c)) :
    (getEpicEvents (recordEpicEvent s c m ts d) c).filter (fun e => e.messageId != m)
      = (getEpicEvents s c).filter (fun e => e.messageId != m) := by
  have hnew := recordEpicEvent_wf s c m ts d h
  haveI : IsAntisymm (StateEvent δ) (fun a b => a.messageId.data < b.messageId.data) :=
    ⟨fun a b h1 h2 => absurd h1 (lt_asymm h2)⟩
  refine List.eq_of_perm_of_sorted ?_ (List.Pairwise.filter _ hnew) (List.Pairwise.filter _ h)
  rw [recordEpicEvent_log]
  refine ((List.mergeSort_perm _ eventLe).filter _).trans ?_
  rw [List.filter_append, List.filter_filter]
  simp [Bool.and_self]

theorem applyEpicOps_wf (ops : List (EpicOp δ)) : ∀ (s : ManagerState β δ),
    (∀ c, EpicLogWF (getEpicEvents s c)) →
    ∀ c, EpicLogWF (getEpicEvents (applyEpicOps s ops) c) := by
  induction ops with
  | nil => intro s h c; exact h c
  | cons op rest ih =>
    intro s h c
    refine ih _ ?_ c
    intro c'
    by_cases hc : c' = op.channelId
    · subst hc
      exact recordEpicEvent_wf _ _ _ _ _ (h _)
    · rw [recordEpicEvent_other _ _ _ _ _ _ hc]
      exact h c'

/-- C2: after `recordEpicEvent(channelId, messageId, delta)` the stored log
holds exactly one event for `messageId` — the new one, replacing any prior
event for it — while all events for the other message ids are unchanged, and
the log is strictly sorted by messageId (`EpicLogWF`: ascending lexicographic
order, hence at most one event per messageId).  The invariant is preserved by
each call from a well-formed log, and consequently holds for the log produced
by every sequence of `recordEpicEvent` calls from an empty store. -/
theorem recordEpicEvent_invariant :
    (∀ (s : ManagerState β δ) (c m ts : String) (d : δ),
        EpicLogWF (getEpicEvents s c) →
          EpicLogWF (getEpicEvents (recordEpicEvent s c m ts d) c)
          ∧ (getEpicEvents (recordEpicEvent s c m ts d) c).filter
              (fun e => e.messageId == m) = [⟨m, ts, d⟩]
          ∧ (getEpicEvents (recordEpicEvent s c m ts d) c).filter
              (fun e => e.messageId != m)
            = (getEpicEvents s c).filter (fun e => e.messageId != m))
    ∧ ∀ (ops : List (EpicOp δ)) (c : String),
        EpicLogWF (getEpicEvents (applyEpicOps (emptyManager β δ) ops) c) := by
  constructor
  · intro s c m ts d h
    exact ⟨recordEpicEvent_wf s c m ts d h,
      recordEpicEvent_filter_self s c m ts d,
      recordEpicEvent_filter_other s c m ts d h⟩
  · intro ops c
    refine applyEpicOps_wf ops (emptyManager β δ) ?_ c
    intro c'
    exact List.Pairwise.nil

/-- Witness for C2 at a concrete store: the log of `wfMgr` on channel `ch` is
well-formed, so the conclusion of the invariant theorem holds for recording an
update to message `m2` there. -/
theorem recordEpicEvent_invariant_witness :
    EpicLogWF (getEpicEvents wfMgr "ch")
    ∧ (EpicLogWF (getEpicEvents (recordEpicEvent wfMgr "ch" "m2" "t9" 9) "ch")
       ∧ (getEpicEvents (recordEpicEvent wfMgr "ch" "m2" "t9" 9) "ch").filter
           (fun e => e.messageId == "m2") = [⟨"m2", "t9", 9⟩]
       ∧ (getEpicEvents (recordEpicEvent wfMgr "ch" "m2" "t9" 9) "ch").filter
           (fun e => e.messageId != "m2")
         = (getEpicEvents wfMgr "ch").filter (fun e => e.messageId != "m2")) :=
  ⟨by decide, recordEpicEvent_invariant.1 wfMgr "ch" "m2" "t9" 9 (by decide)⟩

/-! ## Forking the epic log (C3, C10) -/

theorem takeWhile_eq_filter_of_pairwise {R : α → α → Prop} {p : α → Bool}
    (hmono : ∀ a b, R a b → p a = false → p b = false) :
    ∀ {l : List α}, l.Pairwise R → l.takeWhile p = l.filter p := by
  intro l
  induction l with
  | nil => intro _; rfl
  | cons a t ih =>
    intro hpw
    rw [List.pairwise_cons] at hpw
    cases hpa : p a with
    | true => simp [List.takeWhile_cons, List.filter_cons, hpa, ih hpw.2]
    | false =>
      have hfil : t.filter p = [] := by
        rw [List.filter_eq_nil_iff]
        intro b hb
        rw [hmono a b (hpw.1 b hb) hpa]
        simp
      simp [List.takeWhile_cons, List.filter_cons, hpa, hfil]

theorem takeWhile_of_forall {p : α → Bool} :
    ∀ {l : List α}, (∀ a ∈ l, p a = true) → l.takeWhile p = l := by
  intro l
  induction l with
  | nil => intro _; rfl
  | cons a t ih =>
    intro h
    have ha : p a = true := h a (List.mem_cons_self a t)
    have ht : List.takeWhile p t = t := ih fun b hb => h b (List.mem_cons_of_mem a hb)
    simp [List.takeWhile_cons, ha, ht]

/-- The fork's copy predicate `e.messageId.localeCompare(M) <= 0` agrees with
the replay loop's keep predicate "not past the bound `M`". -/
theorem msgLeb_eq_not_breakTest (M : String) (e : StateEvent δ) :
    msgLeb e.messageId M = !(breakTest (some M) e) := rfl

theorem forkEpicState_log (s : ManagerState β δ) (p c M : String)
    (hc : getEpicEvents s c = [] ∨
          (getEpicEvents s p).filter (fun e => msgLeb e.messageId M) ≠ []) :
    getEpicEvents (forkEpicState s p c M) c
      = (getEpicEvents s p).filter (fun e => msgLeb e.messageId M) := by
  by_cases hlen :
      ((getEpicEvents s p).filter (fun e => msgLeb e.messageId M)).length > 0
  · simp only [forkEpicState, if_pos hlen]
    simp [saveEpicEvents, getEpicEvents, Function.update_same]
  · have hnil : (getEpicEvents s p).filter (fun e => msgLeb e.messageId M) = [] := by
      cases hf : (getEpicEvents s p).filter (fun e => msgLeb e.messageId M) with
      | nil => rfl
      | cons x xs => rw [hf] at hlen; simp at hlen
    rcases hc with hce | hne
    · simp only [forkEpicState, if_neg hlen]
      rw [hce, hnil]
    · exact absurd hnil hne

/-- C3 (amended): provided the parent log is sorted (the invariant every log
maintained by `recordEpicEvent` satisfies) and either some parent event lies
at or before the fork point or the child has no stored events, `forkEpicState`
leaves the child's log holding exactly the parent events with messageId ≤ M;
consequently replaying the child up to M (any live set, any reducer) equals
replaying the parent up to M, and events recorded on the parent afterwards do
not appear in the child's log. -/
theorem forkEpicState_correct (s : ManagerState β δ) (p c M : String)
    (live : Option (List String)) (r : Option σ → δ → σ)
    (hwf : EpicLogWF (getEpicEvents s p))
    (hc : getEpicEvents s c = [] ∨
          (getEpicEvents s p).filter (fun e => msgLeb e.messageId M) ≠ []) :
    getEpicEvents (forkEpicState s p c M) c
        = (getEpicEvents s p).filter (fun e => msgLeb e.messageId M)
    ∧ getEpicState (forkEpicState s p c M) c (some M) live r
        = getEpicState s p (some M) live r
    ∧ ∀ (m ts : String) (d : δ), c ≠ p →
        getEpicEvents (recordEpicEvent (forkEpicState s p c M) p m ts d) c
          = getEpicEvents (forkEpicState s p c M) c := by
  refine ⟨forkEpicState_log s p c M hc, ?_, ?_⟩
  · unfold getEpicState
    rw [replayLoop_eq_foldl, replayLoop_eq_foldl, forkEpicState_log s p c M hc]
    have h1 : ((getEpicEvents s p).filter
        (fun e => msgLeb e.messageId M)).takeWhile (fun e => !(breakTest (some M) e))
        = (getEpicEvents s p).filter (fun e => msgLeb e.messageId M) := by
      refine takeWhile_of_forall ?_
      intro a ha
      rw [← msgLeb_eq_not_breakTest]
      exact (List.mem_filter.mp ha).2
    have h2 : (getEpicEvents s p).takeWhile (fun e => !(breakTest (some M) e))
        = (getEpicEvents s p).filter (fun e => !(breakTest (some M) e)) := by
      refine takeWhile_eq_filter_of_pairwise ?_ hwf
      intro a b hab hfa
      have hMa : M.data < a.messageId.data := by
        have hx : msgLtb M a.messageId = true := by
          simpa [breakTest] using hfa
        exact (msgLtb_iff _ _).mp hx
      have : M.data < b.messageId.data := lt_trans hMa hab
      simp [breakTest, msgLtb_iff, this]
    rw [h1, h2]
    have h3 : (fun e : StateEvent δ => msgLeb e.messageId M)
        = (fun e : StateEvent δ => !(breakTest (some M) e)) := rfl
    rw [h3]
  · intro m ts d hne
    exact recordEpicEvent_other _ _ _ _ _ _ hne

/-- C3 counterexample: with an empty parent log and a child that already holds
an event at or before the fork point, `forkEpicState` writes nothing, so the
child's log is not the parent's ≤-M prefix and replaying the child up to M
differs from replaying the parent up to M. -/
theorem forkEpicState_claim_cex :
    ¬ (getEpicEvents (forkEpicState forkCexMgr "p" "c" "b") "c"
         = (getEpicEvents forkCexMgr "p").filter (fun e => msgLeb e.messageId "b")
       ∧ getEpicState (forkEpicState forkCexMgr "p" "c" "b") "c" (some "b") none addReducer
         = getEpicState forkCexMgr "p" (some "b") none addReducer) := by
  decide

/-- Witness for C3 at a concrete store: sorted two-event parent log, empty
child, fork at the first event's id. -/
theorem forkEpicState_correct_witness :
    (EpicLogWF (getEpicEvents wfMgr "ch")
     ∧ (getEpicEvents wfMgr "th" = [] ∨
        (getEpicEvents wfMgr "ch").filter (fun e => msgLeb e.messageId "m2") ≠ []))
    ∧ getEpicEvents (forkEpicState wfMgr "ch" "th" "m2") "th"
        = (getEpicEvents wfMgr "ch").filter (fun e => msgLeb e.messageId "m2")
    ∧ getEpicState (forkEpicState wfMgr "ch" "th" "m2") "th" (some "m2") none addReducer
        = getEpicState wfMgr "ch" (some "m2") none addReducer :=
  ⟨⟨by decide, Or.inl (by decide)⟩,
   (forkEpicState_correct wfMgr "ch" "th" "m2" none addReducer (by decide)
      (Or.inl (by decide))).1,
   (forkEpicState_correct wfMgr "ch" "th" "m2" none addReducer (by decide)
      (Or.inl (by decide))).2.1⟩

/-- C10: when no parent event lies at or before the fork point, `forkEpicState`
performs no write at all — the whole store is unchanged, in particular the
child's log — and a child with no stored log still replays to `null`. -/
theorem forkEpicState_noWrite (s : ManagerState β δ) (p c M : String)
    (h : ∀ e ∈ getEpicEvents s p, msgLeb e.messageId M = false) :
    forkEpicState s p c M = s
    ∧ getEpicEvents (forkEpicState s p c M) c = getEpicEvents s c
    ∧ (s.epicFiles c = none →
        ∀ (u : Option String) (live : Option (List String)) (r : Option σ → δ → σ),
          getEpicState (forkEpicState s p c M) c u live r = none) := by
  have hfil : (getEpicEvents s p).filter (fun e => msgLeb e.messageId M) = [] := by
    rw [List.filter_eq_nil_iff]
    intro a ha
    rw [h a ha]
    simp
  have hid : forkEpicState s p c M = s := by
    simp only [forkEpicState, hfil]
    rfl
  refine ⟨hid, by rw [hid], ?_⟩
  intro hnone u live r
  rw [hid]
  unfold getEpicState
  rw [show getEpicEvents s c = [] from by simp [getEpicEvents, hnone]]
  rfl

/-- Witness for C10 at a concrete store: the parent's only event is above the
fork point, the child has no log. -/
theorem forkEpicState_noWrite_witness :
    (∀ e ∈ getEpicEvents noWriteMgr "p", msgLeb e.messageId "a" = false)
    ∧ noWriteMgr.epicFiles "c" = none
    ∧ forkEpicState noWriteMgr "p" "c" "a" = noWriteMgr
    ∧ getEpicState (forkEpicState noWriteMgr "p" "c" "a") "c" none none addReducer = none :=
  ⟨by decide, by decide,
   (@forkEpicState_noWrite Nat Nat Nat noWriteMgr "p" "c" "a" (by decide)).1,
   (@forkEpicState_noWrite Nat Nat Nat noWriteMgr "p" "c" "a" (by decide)).2.2 (by decide)
     none none addReducer⟩

/-! ## The depth calculator (C4) -/

theorem positionsAux_not_mem :
    ∀ (ids : List String) (n : Nat) (f : String → Option Nat) (m : String), m ∉ ids →
      ((ids.enumFrom n).foldl updatePositions f) m = f m := by
  intro ids
  induction ids with
  | nil => intro n f m _; rfl
  | cons a t ih =>
    intro n f m h
    have hma : m ≠ a := fun h2 => h (h2 ▸ List.mem_cons_self a t)
    have hmt : m ∉ t := fun h2 => h (List.mem_cons_of_mem a h2)
    show ((t.enumFrom (n + 1)).foldl updatePositions (updatePositions f (n, a))) m = f m
    rw [ih (n + 1) (updatePositions f (n, a)) m hmt]
    exact Function.update_noteq hma _ _

theorem positionsAux_mem :
    ∀ (ids : List String) (n : Nat) (f : String → Option Nat) (m : String),
      ids.Nodup → m ∈ ids →
      ((ids.enumFrom n).foldl updatePositions f) m = some (n + ids.indexOf m) := by
  intro ids
  induction ids with
  | nil => intro n f m _ hm; cases hm
  | cons a t ih =>
    intro n f m hnd hm
    rw [List.nodup_cons] at hnd
    show ((t.enumFrom (n + 1)).foldl updatePositions (updatePositions f (n, a))) m
      = some (n + (a :: t).indexOf m)
    by_cases hma : m = a
    · subst hma
      rw [positionsAux_not_mem t (n + 1) _ m hnd.1]
      rw [show updatePositions f (n, m) m = some n from Function.update_same _ _ _]
      have : (m :: t).indexOf m = 0 := by simp [List.indexOf_cons]
      rw [this, Nat.add_zero]
    · have hmt : m ∈ t := by
        rcases List.mem_cons.mp hm with h | h
        · exact absurd h hma
        · exact h
      rw [ih (n + 1) _ m hnd.2 hmt]
      have : (a :: t).indexOf m = t.indexOf m + 1 := by
        have hne : (a == m) = false := by
          simp only [beq_eq_false_iff_ne, ne_eq]
          exact fun h2 => hma h2.symm
        simp [List.indexOf_cons, hne]
      rw [this]
      congr 1
      omega

theorem messagePositions_not_mem (ids : List String) (m : String) (h : m ∉ ids) :
    messagePositions ids m = none := by
  unfold messagePositions
  exact positionsAux_not_mem ids 0 _ m h

theorem messagePositions_mem (ids : List String) (m : String) (hnd : ids.Nodup)
    (hm : m ∈ ids) : messagePositions ids m = some (ids.indexOf m) := by
  unfold messagePositions
  have h := positionsAux_mem ids 0 (fun _ => none) m hnd hm
  rw [Nat.zero_add] at h
  exact h

/-- C4: `calculateCurrentDepth` returns `targetDepth` when `lastModifiedAt` is
null or not present in the ordered message-id list, and otherwise
`min(n - 1 - pos, targetDepth)` where `pos` is the index of `lastModifiedAt`
and `n` the list's length. -/
theorem calculateCurrentDepth_spec (ids : List String) (m : String) (targetDepth : Nat) :
    calculateCurrentDepth ids none targetDepth = targetDepth
    ∧ (m ∉ ids → calculateCurrentDepth ids (some m) targetDepth = targetDepth)
    ∧ (ids.Nodup → m ∈ ids →
        calculateCurrentDepth ids (some m) targetDepth
          = min (ids.length - 1 - ids.indexOf m) targetDepth) := by
  refine ⟨rfl, ?_, ?_⟩
  · intro h
    simp [calculateCurrentDepth, messagePositions_not_mem ids m h]
  · intro hnd hm
    simp [calculateCurrentDepth, messagePositions_mem ids m hnd hm]

/-- Witness for C4 at a concrete context: `b` sits at index 1 of a three-id
context, so the depth is `min(3 - 1 - 1, 5) = 1`. -/
theorem calculateCurrentDepth_spec_witness :
    (["a", "b", "c"] : List String).Nodup ∧ "b" ∈ (["a", "b", "c"] : List String)
    ∧ calculateCurrentDepth ["a", "b", "c"] (some "b") 5
        = min ((["a", "b", "c"] : List String).length - 1
            - (["a", "b", "c"] : List String).indexOf "b") 5 :=
  ⟨by decide, by decide,
   (calculateCurrentDepth_spec ["a", "b", "c"] "b" 5).2.2 (by decide) (by decide)⟩

/-! ## Channel state: inheritance, isolation, round trips (C5, C6, C7) -/

/-- The recursive lookup `this.getChannelState(id)` with no `inheritFrom` is a
plain file read. -/
theorem getChannelState_none (s : ManagerState β δ) (c : String) :
    getChannelState s c none = readChannelFile s c := by
  unfold getChannelState readChannelFile
  cases s.channelFiles c <;> rfl

/-- C5: on a channel with no stored state, `getChannelState` inherits from the
`.history` origin when one is named and has state — returning that channel's
blob with its metadata, `historyOriginChannelId` recorded; otherwise from the
thread parent under the same condition with `parentChannelId` recorded;
otherwise it returns the null state with `lastModifiedMessageId: null`.  The
history origin branch is tried before the parent branch. -/
theorem getChannelState_inheritance (s : ManagerState β δ) (c : String)
    (inh : Option InheritFrom) (hc : s.channelFiles c = none) :
    (∀ originId v, inh.bind (fun i => i.historyOriginChannelId) = some originId →
        (readChannelFile s originId).state = some v →
        getChannelState s c inh
          = { state := some v
              metadata := { (readChannelFile s originId).metadata with
                            historyOriginChannelId := some originId } })
    ∧ ((∀ originId ∈ inh.bind (fun i => i.historyOriginChannelId),
          (readChannelFile s originId).state = none) →
        ∀ parentId v, inh.bind (fun i => i.parentChannelId) = some parentId →
          (readChannelFile s parentId).state = some v →
          getChannelState s c inh
            = { state := some v
                metadata := { (readChannelFile s parentId).metadata with
                              parentChannelId := some parentId } })
    ∧ ((∀ originId ∈ inh.bind (fun i => i.historyOriginChannelId),
          (readChannelFile s originId).state = none) →
       (∀ parentId ∈ inh.bind (fun i => i.parentChannelId),
          (readChannelFile s parentId).state = none) →
        getChannelState s c inh = { state := none, metadata := emptyMetadata }) := by
  refine ⟨?_, ?_, ?_⟩
  · intro originId v h1 h2
    simp [getChannelState, hc, h1, h2]
  · intro hno parentId v h3 h4
    cases hbind : inh.bind (fun i => i.historyOriginChannelId) with
    | none => simp [getChannelState, hc, hbind, h3, h4]
    | some originId =>
      have h0 : (readChannelFile s originId).state = none := by
        refine hno originId ?_
        rw [hbind]
        rfl
      simp [getChannelState, hc, hbind, h0, h3, h4]
  · intro hno hnp
    cases hbind : inh.bind (fun i => i.historyOriginChannelId) with
    | none =>
      cases hbp : inh.bind (fun i => i.parentChannelId) with
      | none => simp [getChannelState, hc, hbind, hbp]
      | some parentId =>
        have h0 : (readChannelFile s parentId).state = none := by
          refine hnp parentId ?_
          rw [hbp]
          rfl
        simp [getChannelState, hc, hbind, hbp, h0]
    | some originId =>
      have h0 : (readChannelFile s originId).state = none := by
        refine hno originId ?_
        rw [hbind]
        rfl
      cases hbp : inh.bind (fun i => i.parentChannelId) with
      | none => simp [getChannelState, hc, hbind, h0, hbp]
      | some parentId =>
        have h1 : (readChannelFile s parentId).state = none := by
          refine hnp parentId ?_
          rw [hbp]
          rfl
        simp [getChannelState, hc, hbind, h0, hbp, h1]

/-- Witness for C5 at a concrete store: the child `c` has no file, both a
history origin `H` and a parent `P` are named and have state, and the origin's
blob wins. -/
theorem getChannelState_inheritance_witness :
    inhMgr.channelFiles "c" = none
    ∧ ((some { parentChannelId := some "P", historyOriginChannelId := some "H" }
          : Option InheritFrom).bind (fun i => i.historyOriginChannelId) = some "H")
    ∧ (readChannelFile inhMgr "H").state = some 2
    ∧ getChannelState inhMgr "c"
        (some { parentChannelId := some "P", historyOriginChannelId := some "H" })
        = { state := some 2
            metadata := { (readChannelFile inhMgr "H").metadata with
                          historyOriginChannelId := some "H" } } :=
  ⟨by decide, by decide, by decide,
   (getChannelState_inheritance inhMgr "c"
      (some { parentChannelId := some "P", historyOriginChannelId := some "H" })
      (by decide)).1 "H" 2 (by decide) (by decide)⟩

/-- C6: with a parent channel holding blob `v` and a child without stored
state, the child's read through inheritance yields `v`, and a subsequent
`setChannelState` on the child leaves the parent's stored file — and hence any
later read of the parent — unchanged. -/
theorem setChannelState_parent_frame (s : ManagerState β δ) (parentId childId : String)
    (v : β) (md : ChannelStateMetadata) (newState : Option β) (mid : Option String)
    (hp : s.channelFiles parentId = some ⟨some v, md⟩)
    (hc : s.channelFiles childId = none) :
    (getChannelState s childId (some { parentChannelId := some parentId })).state = some v
    ∧ (setChannelState s childId newState mid).channelFiles parentId = some ⟨some v, md⟩
    ∧ ∀ inh, (getChannelState (setChannelState s childId newState mid) parentId inh).state
        = some v := by
  have hne : parentId ≠ childId := by
    intro h
    rw [h, hc] at hp
    cases hp
  have hframe : (setChannelState s childId newState mid).channelFiles parentId
      = some ⟨some v, md⟩ := by
    simp only [setChannelState]
    rw [Function.update_noteq hne]
    exact hp
  refine ⟨?_, hframe, ?_⟩
  · simp [getChannelState, hc, readChannelFile, hp]
  · intro inh
    simp [getChannelState, hframe]

/-- Witness for C6 at a concrete store: parent `P` holds blob `1`; after the
child `c` reads it by inheritance and writes `9`, `P` still holds `1`. -/
theorem setChannelState_parent_frame_witness :
    inhMgr.channelFiles "P" = some ⟨some 1, { lastModifiedMessageId := some "mp" }⟩
    ∧ inhMgr.channelFiles "c" = none
    ∧ (getChannelState inhMgr "c" (some { parentChannelId := some "P" })).state = some 1
    ∧ (setChannelState inhMgr "c" (some 9) (some "m9")).channelFiles "P"
        = some ⟨some 1, { lastModifiedMessageId := some "mp" }⟩ :=
  ⟨by decide, by decide,
   (setChannelState_parent_frame inhMgr "P" "c" 1 { lastModifiedMessageId := some "mp" }
      (some 9) (some "m9") (by decide) (by decide)).1,
   (setChannelState_parent_frame inhMgr "P" "c" 1 { lastModifiedMessageId := some "mp" }
      (some 9) (some "m9") (by decide) (by decide)).2.1⟩

/-- Reading a channel right after writing it yields the written blob, under
any inheritance hints (a present file ignores them). -/
theorem setChannelState_read (s : ManagerState β δ) (v : Option β) (c : String)
    (mid : Option String) (inh : Option InheritFrom) :
    (getChannelState (setChannelState s c v mid) c inh).state = v := by
  have hfile : (setChannelState s c v mid).channelFiles c
      = some ⟨v, { (getChannelState s c none).metadata with
                   lastModifiedMessageId :=
                     match mid with
                     | some m => some m
                     | none => (getChannelState s c none).metadata.lastModifiedMessageId }⟩ := by
    simp only [setChannelState]
    rw [Function.update_same]
  simp [getChannelState, hfile]

/-- C7: set-then-get round trips — `setGlobalState v; getGlobalState()`
returns `v`, and `setChannelState(c, v, mid); getChannelState(c)` returns
state `v` (under any inheritance hints, which a present file ignores). -/
theorem state_roundTrip (s : ManagerState β δ) (v : Option β) (c : String)
    (mid : Option String) :
    getGlobalState (setGlobalState s v) = v
    ∧ ∀ inh, (getChannelState (setChannelState s c v mid) c inh).state = v :=
  ⟨rfl, fun inh => setChannelState_read s v c mid inh⟩

/-! ## Path mapping (C8)

The source's three path getters perform no validation whatsoever: there is no
occurrence of any identifier check (and no `InvalidIdentifier` error) anywhere
in state.ts, so a pluginId or channelId containing `/` is interpolated into
the joined path unchanged. -/

/-- C8 counterexample: a channelId containing a separator is not rejected —
`channelPath` maps it to the separator-expanded nested path, and a pluginId
containing separators makes `globalPath` collide with a different plugin's
`channelPath`.  No state operation fails: the mapping is total. -/
theorem path_separator_cex :
    channelPath "cache" "plug" "a/b" = "cache/plugins/plug/channel/a/b.json"
    ∧ globalPath "cache" "plug/channel/x" = channelPath "cache" "plug" "x/global" :=
  ⟨rfl, rfl⟩

/-- C8 (amended): the path mappers reject nothing; a pluginId or channelId
containing a separator is interpolated verbatim, so the resulting path aliases
paths of other scopes — `globalPath` on the compound id `p/channel/x` (resp.
`p/epic/x`) equals `channelPath` (resp. `epicEventsPath`) of plugin `p` at the
compound channelId `x/global` — and state operations on separator-bearing ids
proceed normally instead of failing. -/
theorem path_separator_expansion (cacheDir pluginId x : String) :
    globalPath cacheDir (pathJoin (pathJoin pluginId "channel") x)
      = channelPath cacheDir pluginId (pathJoin x "global")
    ∧ globalPath cacheDir (pathJoin (pathJoin pluginId "epic") x)
      = epicEventsPath cacheDir pluginId (pathJoin x "global")
    ∧ ∀ (s : ManagerState β δ) (v : Option β) (mid : Option String),
        (getChannelState (setChannelState s (pathJoin pluginId x) v mid)
          (pathJoin pluginId x) none).state = v := by
  refine ⟨?_, ?_, ?_⟩
  · simp only [globalPath, channelPath, pathJoin]
    rw [show ("global.json" : String) = "global" ++ ".json" from rfl]
    simp [String.append_assoc]
  · simp only [globalPath, epicEventsPath, pathJoin]
    rw [show ("global.json" : String) = "global" ++ ".json" from rfl]
    simp [String.append_assoc]
  · intro s v mid
    exact setChannelState_read s v (pathJoin pluginId x) mid none

/-! ## Missing epic reducer (C9) -/

/-- C9: in a plugin context bound without an epic reducer, `getState(epic)`
returns the channel-scope state (inheritance applied) instead of a replayed
state and raises the warning flag; `getStateAtMessage` returns `null` with the
warning flag; and `setState(epic, v)` still records an epic event at
`currentMessageId`. -/
theorem missingReducer_behavior (s : ManagerState α α) (channelId currentMessageId : String)
    (ts mid : String) (inh : Option InheritFrom) (mset : List String) (v : α) :
    ctxGetState s channelId inh none mset .epic
        = ((getChannelState s channelId inh).state, true)
    ∧ ctxGetStateAtMessage s channelId none mset mid = (none, true)
    ∧ ctxSetState s channelId currentMessageId ts .epic v
        = recordEpicEvent s channelId currentMessageId ts v :=
  ⟨rfl, rfl, rfl⟩

end Animachat
